import Mathlib

/-!
# Technician task assignment service (`main.go`)

A shallow embedding of the four HTTP handlers of `main.go` and of the
selection loop of `PickBestTech`, followed by the properties of the
specification that were settled against it.

Modelling conventions.

* Go `int` is embedded as `Int`; the handlers perform no integer arithmetic, so
  no overflow can occur.
* A finite `float64` is embedded exactly, as a sign bit and a dyadic magnitude
  (`Float64`).  JSON cannot carry NaN or an infinity, so every float the
  handlers receive is finite.
* Go maps are association lists whose keys are kept distinct; the unspecified
  iteration order of `range` over a map is accounted for by stating the
  properties of the output for every permutation of the collected values.
* The functions of `encoding/json`, `os` and `io` are not part of the
  repository; the handlers take them as a parameter (`Codec`) and the three
  files are a record of file states (`FS`).
-/

namespace TaskService

/-! ## Numbers -/

/-- A finite `float64`: the value `(-1)^neg * num / 2^scale`.  The field `canon`
makes the representation unique, so `=` on `Float64` is identity of the two
floats: it tells `-0.0` from `0.0`, which Go `==` (`Float64.eq`) does not. -/
structure Float64 where
  neg : Bool
  num : Nat
  scale : Nat
  canon : scale = 0 ∨ num % 2 = 1
deriving DecidableEq

namespace Float64

/-- The numerator of the value over the denominator `2^scale`. -/
def signed (x : Float64) : Int :=
  if x.neg then -(x.num : Int) else (x.num : Int)

/-- The exact numeric value of a float. -/
def val (x : Float64) : ℚ := (x.signed : ℚ) / (2 : ℚ) ^ x.scale

/-- Go `x > y` on floats: comparison of the numeric values, computed on a common
denominator. -/
def gt (x y : Float64) : Prop := y.signed * 2 ^ x.scale < x.signed * 2 ^ y.scale

instance (x y : Float64) : Decidable (gt x y) := by
  unfold gt; infer_instance

/-- Numeric `x ≤ y`; on finite floats it is the negation of `x > y`. -/
def le (x y : Float64) : Prop := x.signed * 2 ^ y.scale ≤ y.signed * 2 ^ x.scale

instance (x y : Float64) : Decidable (le x y) := by
  unfold le; infer_instance

/-- Go `x == y` on floats: equality of the numeric values, computed on a common
denominator; `-0.0 == 0.0` holds. -/
def eq (x y : Float64) : Prop := x.signed * 2 ^ y.scale = y.signed * 2 ^ x.scale

instance (x y : Float64) : Decidable (eq x y) := by
  unfold eq; infer_instance

/-- The zero value of a Go `float64`. -/
def zero : Float64 := ⟨false, 0, 0, Or.inl rfl⟩

/-- The float `-0.0`, which `%.2f` prints as `-0.00`. -/
def negZero : Float64 := ⟨true, 0, 0, Or.inl rfl⟩

end Float64

/-- Round `n / d` to the nearest integer, ties to the even neighbour. -/
def roundHalfEven (n d : Nat) : Nat :=
  let q := n / d
  let r := n % d
  if 2 * r < d then q
  else if d < 2 * r then q + 1
  else if q % 2 = 0 then q else q + 1

/-- The verb `%d` of `fmt.Sprintf` on an `int`. -/
def fmtInt (i : Int) : String :=
  if i < 0 then "-" ++ Nat.repr i.natAbs else Nat.repr i.natAbs

/-- The verb `%.2f` of `fmt.Sprintf` on a finite `float64`: the sign of the
float, then its magnitude rounded to hundredths (ties to even on the exact
value) printed with two decimals. -/
def fmtFixed2 (x : Float64) : String :=
  let h := roundHalfEven (x.num * 100) (2 ^ x.scale)
  let frac := h % 100
  (if x.neg then "-" else "") ++ Nat.repr (h / 100) ++ "." ++
    (if frac < 10 then "0" ++ Nat.repr frac else Nat.repr frac)

/-! ## Data model -/

/-- Go struct `NewTask`. -/
structure NewTask where
  TaskPriority : Int
  TaskDuration : Float64
  TaskDistance : Int
deriving DecidableEq

/-- Go struct `AssignedTask`. -/
structure AssignedTask where
  TechnicianID : String
  TaskPriority : Int
  TaskDuration : Float64
  TaskDistance : Int
deriving DecidableEq

/-- Go struct `TechAssignment`. -/
structure TechAssignment where
  TechnicianID : String
  TaskPriority : Int
  TaskDuration : Float64
  TaskDistance : Int
deriving DecidableEq

/-- Go struct `ModelOutput`. -/
structure ModelOutput where
  TechnicianID : String
  TaskPriority : Int
  TaskDuration : Float64
  TaskDistance : Int
  Possibility : Float64
deriving DecidableEq

/-- The tuple `(priority, duration, distanceKm)` of stored values. `=` on it is
identity of the stored values and tells a duration `-0.0` from `0.0`; equality
of signatures as decimal values is `sameSignature`. -/
abbrev TaskSignature := Int × Float64 × Int

/-- Equality of task signatures in the specification: the same priority, the
same distance, and durations equal as numbers (Go `==`). -/
def sameSignature (s t : TaskSignature) : Prop :=
  s.1 = t.1 ∧ Float64.eq s.2.1 t.2.1 ∧ s.2.2 = t.2.2

instance (s t : TaskSignature) : Decidable (sameSignature s t) := by
  unfold sameSignature; infer_instance

/-- Signature of a prediction record. -/
def ModelOutput.signature (p : ModelOutput) : TaskSignature :=
  (p.TaskPriority, p.TaskDuration, p.TaskDistance)

/-- Signature of an assignment. -/
def TechAssignment.signature (a : TechAssignment) : TaskSignature :=
  (a.TaskPriority, a.TaskDuration, a.TaskDistance)

/-! ## The selection loop of `PickBestTech` -/

/-- Go `taskKey`: `fmt.Sprintf("%d-%.2f-%d", priority, duration, distance)`. -/
def taskKey (priority : Int) (duration : Float64) (distance : Int) : String :=
  fmtInt priority ++ "-" ++ fmtFixed2 duration ++ "-" ++ fmtInt distance

/-- The key under which the loop files a prediction record. -/
def ModelOutput.key (p : ModelOutput) : String :=
  taskKey p.TaskPriority p.TaskDuration p.TaskDistance

/-- The key of the signature carried by an assignment. -/
def TechAssignment.key (a : TechAssignment) : String :=
  taskKey a.TaskPriority a.TaskDuration a.TaskDistance

/-- The key of a signature. -/
def sigKey (s : TaskSignature) : String := taskKey s.1 s.2.1 s.2.2

/-- A Go `map[string]V`: the entries, with distinct keys. -/
abbrev GoMap (V : Type) := List (String × V)

/-- Map read `m[k]` with the presence flag. -/
def GoMap.get {V : Type} (m : GoMap V) (k : String) : Option V :=
  match m with
  | [] => none
  | (k', v) :: rest => if k' = k then some v else GoMap.get rest k

/-- Map write `m[k] = v`: replaces the entry of `k`, or adds one. -/
def GoMap.set {V : Type} (m : GoMap V) (k : String) (v : V) : GoMap V :=
  match m with
  | [] => [(k, v)]
  | (k', v') :: rest => if k' = k then (k, v) :: rest else (k', v') :: GoMap.set rest k v

/-- The two maps of the loop. -/
structure SelState where
  bestAssignments : GoMap TechAssignment
  bestScores : GoMap Float64

/-- The assignment literal built in the loop body. -/
def ModelOutput.toAssignment (p : ModelOutput) : TechAssignment :=
  { TechnicianID := p.TechnicianID
    TaskPriority := p.TaskPriority
    TaskDuration := p.TaskDuration
    TaskDistance := p.TaskDistance }

/-- The two map writes of the loop body. -/
def SelState.install (st : SelState) (key : String) (p : ModelOutput) : SelState :=
  { bestScores := st.bestScores.set key p.Possibility
    bestAssignments := st.bestAssignments.set key p.toAssignment }

/-- One iteration of `for _, p := range predictions`. -/
def selectStep (st : SelState) (p : ModelOutput) : SelState :=
  let key := taskKey p.TaskPriority p.TaskDuration p.TaskDistance
  match st.bestScores.get key with
  | none => st.install key p
  | some score => if Float64.gt p.Possibility score then st.install key p else st

/-- The selection loop, started on two empty maps. -/
def selectLoop (predictions : List ModelOutput) : SelState :=
  predictions.foldl selectStep { bestAssignments := [], bestScores := [] }

/-- The loop `for _, a := range bestAssignments { assignments = append(assignments, a) }`,
in the order of the entries. -/
def collect (m : GoMap TechAssignment) : List TechAssignment :=
  m.foldl (fun assignments e => assignments ++ [e.2]) []

/-- The slice `assignments` computed by `PickBestTech` from the predictions, for
one iteration order of the map. -/
def pickBest (predictions : List ModelOutput) : List TechAssignment :=
  collect (selectLoop predictions).bestAssignments

/-! ## Files, requests and responses -/

/-- What `os.ReadFile` finds at a path. -/
inductive FileState (B : Type) where
  /-- No such file: the error satisfies `os.IsNotExist`. -/
  | absent : FileState B
  /-- The file exists and the read fails with another error. -/
  | unreadable : FileState B
  /-- The bytes of the file. -/
  | data : B → FileState B
deriving DecidableEq

/-- The three files the handlers touch. `tasksWritable` tells whether
`os.WriteFile("./tasks.json", ...)` succeeds; a failed write is taken to leave
the file as it was. -/
structure FS (B : Type) where
  /-- The file `./tasks.json`. -/
  tasks : FileState B
  /-- The file `./data/automl_training_data.json`. -/
  training : FileState B
  /-- The file `./data/ml_prediction.json`. -/
  predictions : FileState B
  tasksWritable : Bool
deriving DecidableEq

/-- The functions of the standard library the handlers call, over byte strings
`B`; `none` is a returned error. -/
structure Codec (B : Type) where
  /-- The test `len(data) == 0`. -/
  isEmpty : B → Bool
  /-- The call `json.Unmarshal(data, &newtask)` with `newtask NewTask`. -/
  unmarshalTask : B → Option NewTask
  /-- The call `json.Unmarshal(data, &tasks)` with `tasks []NewTask`. -/
  unmarshalTasks : B → Option (List NewTask)
  /-- The call `json.Unmarshal(data, &allTasks)` with `allTasks []AssignedTask`. -/
  unmarshalAssigned : B → Option (List AssignedTask)
  /-- The call `json.Unmarshal(data, &predictions)` with `predictions []ModelOutput`. -/
  unmarshalPredictions : B → Option (List ModelOutput)
  /-- The call `json.MarshalIndent(tasks, "", "  ")`. -/
  marshalTasks : List NewTask → Option B

/-- What a handler writes to the response: the message of `http.Error` or of
`rw.Write`, or the value handed to `json.NewEncoder(w).Encode`. -/
inductive Payload where
  | text : String → Payload
  | tasks : List NewTask → Payload
  | assigned : List AssignedTask → Payload
  | assignments : List TechAssignment → Payload
deriving DecidableEq

/-- An HTTP response: status code and payload. -/
structure Response where
  status : Nat
  body : Payload
deriving DecidableEq

/-- The call `http.Error(w, msg, code)`. -/
def httpError (msg : String) (code : Nat) : Response := { status := code, body := .text msg }

/-- Go `http.StatusBadRequest`. -/
def StatusBadRequest : Nat := 400
/-- Go `http.StatusExpectationFailed`. -/
def StatusExpectationFailed : Nat := 417
/-- Go `http.StatusInternalServerError`. -/
def StatusInternalServerError : Nat := 500
/-- Go `http.StatusCreated`. -/
def StatusCreated : Nat := 201
/-- Go `http.StatusOK`, the status of a response on which `WriteHeader` is not called. -/
def StatusOK : Nat := 200

/-! ## The handlers -/

/-- The block "Load existing tasks from file" of `CreateTaskHandler`: the
loaded slice, or the error response. -/
def loadExisting {B : Type} (J : Codec B) (fs : FS B) : Except Response (List NewTask) :=
  match fs.training with
  | .data fileData =>
    match J.unmarshalTasks fileData with
    | none => .error (httpError "Error parsing existing tasks" StatusInternalServerError)
    | some tasks => .ok tasks
  | .absent => .ok []
  | .unreadable => .error (httpError "Unable to read task file" StatusInternalServerError)

/-- Go `CreateTaskHandler`. The argument `body` is the result of
`io.ReadAll(r.Body)`, `none` when it returns an error. The result is the file
system after the call and the response. -/
def CreateTaskHandler {B : Type} (J : Codec B) (fs : FS B) (body : Option B) :
    FS B × Response :=
  match body with
  | none => (fs, httpError "Request body required" StatusBadRequest)
  | some data =>
    if J.isEmpty data then (fs, httpError "Request body required" StatusBadRequest)
    else
      match J.unmarshalTask data with
      | none => (fs, httpError "Invalid JSON format" StatusExpectationFailed)
      | some newtask =>
        match loadExisting J fs with
        | .error resp => (fs, resp)
        | .ok tasks =>
          match J.marshalTasks (tasks ++ [newtask]) with
          | none => (fs, httpError "Error encoding task list" StatusInternalServerError)
          | some updatedData =>
            if fs.tasksWritable then
              ({ fs with tasks := .data updatedData },
                { status := StatusCreated, body := .text "Added New Task" })
            else (fs, httpError "Error writing task file" StatusInternalServerError)

/-- Go `ViewAllNewTasksHandler`. -/
def ViewAllNewTasksHandler {B : Type} (J : Codec B) (fs : FS B) : Response :=
  match fs.tasks with
  | .data data =>
    match J.unmarshalTasks data with
    | none => httpError "Could not parse new tasks" StatusInternalServerError
    | some tasks => { status := StatusOK, body := .tasks tasks }
  | _ => httpError "Could not read new tasks" StatusInternalServerError

/-- The filter loop of `ViewAssignedTasksHandler`. -/
def filterByTechnician (allTasks : List AssignedTask) (techID : String) : List AssignedTask :=
  allTasks.foldl
    (fun filtered newtask =>
      if newtask.TechnicianID = techID then filtered ++ [newtask] else filtered) []

/-- Go `ViewAssignedTasksHandler`. The argument `techID` is
`r.URL.Query().Get("technicianid")`, the empty string when the parameter is
missing. -/
def ViewAssignedTasksHandler {B : Type} (J : Codec B) (fs : FS B) (techID : String) :
    Response :=
  match fs.training with
  | .data data =>
    match J.unmarshalAssigned data with
    | none => httpError "Failed to parse task file" StatusInternalServerError
    | some allTasks =>
      if techID = "" then
        httpError "Missing 'technicianid' query parameter" StatusBadRequest
      else { status := StatusOK, body := .assigned (filterByTechnician allTasks techID) }
  | _ => httpError "Failed to read assigned task file" StatusInternalServerError

/-- Go `PickBestTech`, for one iteration order of the map `bestAssignments`. -/
def PickBestTech {B : Type} (J : Codec B) (fs : FS B) : Response :=
  match fs.predictions with
  | .data data =>
    match J.unmarshalPredictions data with
    | none => httpError "Failed to parse file" StatusInternalServerError
    | some predictions => { status := StatusOK, body := .assignments (pickBest predictions) }
  | _ => httpError "Failed to read file" StatusInternalServerError

/-- A run of successive `CreateTaskHandler` calls, one per request body; the
responses are returned in call order. -/
def createAll {B : Type} (J : Codec B) (fs : FS B) : List (Option B) → FS B × List Response
  | [] => (fs, [])
  | body :: rest =>
    let r := CreateTaskHandler J fs body
    let rs := createAll J r.1 rest
    (rs.1, r.2 :: rs.2)

/-! ## A reference instance of the library

Documents are taken at the level of their JSON structure: an object or an array
of objects whose members are the ones the structs of `main.go` name, each
present or not; anything else is malformed. -/

/-- One JSON object: the members named by the struct tags, each present or not. -/
structure Row where
  technician : Option String
  priority : Option Int
  duration : Option Float64
  distance : Option Int
  probability : Option Float64
deriving DecidableEq

/-- The bytes of a request body or of a file. -/
inductive Doc where
  /-- Zero bytes. -/
  | empty : Doc
  /-- Bytes that are not a JSON object or array of the shape below. -/
  | malformed : Doc
  /-- A JSON object. -/
  | object : Row → Doc
  /-- A JSON array of objects. -/
  | array : List Row → Doc
deriving DecidableEq

/-- Decoding of an object into a `NewTask`: a missing member leaves the zero
value, other members are ignored. -/
def Row.toNewTask (r : Row) : NewTask :=
  { TaskPriority := r.priority.getD 0
    TaskDuration := r.duration.getD Float64.zero
    TaskDistance := r.distance.getD 0 }

/-- Decoding of an object into an `AssignedTask`. -/
def Row.toAssignedTask (r : Row) : AssignedTask :=
  { TechnicianID := r.technician.getD ""
    TaskPriority := r.priority.getD 0
    TaskDuration := r.duration.getD Float64.zero
    TaskDistance := r.distance.getD 0 }

/-- Decoding of an object into a `ModelOutput`. -/
def Row.toModelOutput (r : Row) : ModelOutput :=
  { TechnicianID := r.technician.getD ""
    TaskPriority := r.priority.getD 0
    TaskDuration := r.duration.getD Float64.zero
    TaskDistance := r.distance.getD 0
    Possibility := r.probability.getD Float64.zero }

/-- Encoding of a `NewTask`: the three members of the struct. -/
def Row.ofNewTask (t : NewTask) : Row :=
  { technician := none
    priority := some t.TaskPriority
    duration := some t.TaskDuration
    distance := some t.TaskDistance
    probability := none }

/-- Decoding of an array with the given decoder of its elements. -/
def Doc.decodeArray {α : Type} (f : Row → α) : Doc → Option (List α)
  | .array rs => some (rs.map f)
  | _ => none

/-- The reference library over `Doc`. -/
def refCodec : Codec Doc :=
  { isEmpty := fun d => decide (d = Doc.empty)
    unmarshalTask := fun d =>
      match d with
      | .object r => some r.toNewTask
      | _ => none
    unmarshalTasks := Doc.decodeArray Row.toNewTask
    unmarshalAssigned := Doc.decodeArray Row.toAssignedTask
    unmarshalPredictions := Doc.decodeArray Row.toModelOutput
    marshalTasks := fun ts => some (Doc.array (ts.map Row.ofNewTask)) }

/-- The projection of an assignment record on `(priority, duration, distanceKm)`. -/
def AssignedTask.toNewTask (a : AssignedTask) : NewTask :=
  { TaskPriority := a.TaskPriority
    TaskDuration := a.TaskDuration
    TaskDistance := a.TaskDistance }

/-- Law of `encoding/json`: decoding what `MarshalIndent` wrote gives the list back. -/
def Codec.RoundTrip {B : Type} (J : Codec B) : Prop :=
  ∀ (ts : List NewTask) (b : B), J.marshalTasks ts = some b → J.unmarshalTasks b = some ts

/-- Law of `encoding/json`: members without a field in the target struct are
ignored, so a document that decodes as `[]AssignedTask` decodes as `[]NewTask`
to the projected records. -/
def Codec.Projects {B : Type} (J : Codec B) : Prop :=
  ∀ (b : B) (recs : List AssignedTask),
    J.unmarshalAssigned b = some recs → J.unmarshalTasks b = some (recs.map AssignedTask.toNewTask)

/-- A file system on which no file exists yet. -/
def FS.fresh (B : Type) : FS B :=
  { tasks := .absent, training := .absent, predictions := .absent, tasksWritable := true }

/-- The winner of one key after one more record: the record replaces the
current winner of its key only when its probability is strictly greater. -/
def winStep (k : String) (cur : Option ModelOutput) (p : ModelOutput) : Option ModelOutput :=
  if p.key = k then
    match cur with
    | none => some p
    | some c => if Float64.gt p.Possibility c.Possibility then some p else some c
  else cur

/-- The record whose entry the loop holds under key `k` after the given records. -/
def winner (k : String) (predictions : List ModelOutput) : Option ModelOutput :=
  predictions.foldl (winStep k) none

/-! ## Concrete inputs -/

/-- The float `0.5`. -/
def half : Float64 := ⟨false, 1, 1, Or.inr (by decide)⟩
/-- The float nearest to `0.6`. -/
def sixTenths : Float64 := ⟨false, 5404319552844595, 53, Or.inr (by decide)⟩
/-- The float nearest to `0.9`. -/
def nineTenths : Float64 := ⟨false, 8106479329266893, 53, Or.inr (by decide)⟩
/-- The float `1.5`. -/
def oneAndHalf : Float64 := ⟨false, 3, 1, Or.inr (by decide)⟩
/-- The float `2.0`. -/
def two : Float64 := ⟨false, 2, 0, Or.inl rfl⟩
/-- The float `2.001953125`, that is `2 + 2^-9`; `%.2f` prints it as `2.00`. -/
def twoPlus : Float64 := ⟨false, 1025, 9, Or.inr (by decide)⟩

/-- Scenario A of the specification: technicians `A` (0.6) and `B` (0.9) on the
signature `(1, 2.0, 5)`. -/
def scenarioA : List ModelOutput :=
  [⟨"A", 1, two, 5, sixTenths⟩, ⟨"B", 1, two, 5, nineTenths⟩]

/-- Scenario B of the specification: technicians `X` then `Y`, both with
probability 0.5, on one signature. -/
def scenarioB : List ModelOutput :=
  [⟨"X", 1, two, 5, half⟩, ⟨"Y", 1, two, 5, half⟩]

/-- Two records whose signatures differ in the duration (`2.0` and
`2.001953125`) and whose keys are both `1-2.00-5`. -/
def mergedKeys : List ModelOutput :=
  [⟨"A", 1, two, 5, nineTenths⟩, ⟨"B", 1, twoPlus, 5, sixTenths⟩]

/-- Technicians `X` then `Y`, both with probability 0.5, on two signatures that
differ in the duration (`2.0` and `2.001953125`) and share the key `1-2.00-5`. -/
def tiedKeys : List ModelOutput :=
  [⟨"X", 1, two, 5, half⟩, ⟨"Y", 1, twoPlus, 5, half⟩]

/-- Technicians `A` and `B` on the durations `-0.0` and `0.0`: one signature as
decimal values, two keys `1--0.00-5` and `1-0.00-5`. -/
def signedZeros : List ModelOutput :=
  [⟨"A", 1, Float64.negZero, 5, nineTenths⟩, ⟨"B", 1, Float64.zero, 5, sixTenths⟩]

/-- The task of scenario C: priority 3, duration 1.5, distance 10. -/
def taskC : NewTask := ⟨3, oneAndHalf, 10⟩

/-- A second task: priority 1, duration 2.0, distance 5. -/
def taskD : NewTask := ⟨1, two, 5⟩

/-- Two stored assignment records, of technicians `T1` and `T2`. -/
def trainingRows : List Row :=
  [⟨some "T1", some 2, some two, some 7, none⟩, ⟨some "T2", some 4, some half, some 9, none⟩]

/-- A file system with two assignment records in `./data/automl_training_data.json`
and one task in `./tasks.json`. -/
def populated : FS Doc :=
  { tasks := .data (Doc.array [Row.ofNewTask taskD])
    training := .data (Doc.array trainingRows)
    predictions := .absent
    tasksWritable := true }

/-- A file system whose `./data/automl_training_data.json` is not JSON. -/
def corrupted : FS Doc :=
  { tasks := .data (Doc.array [Row.ofNewTask taskD])
    training := .data Doc.malformed
    predictions := .absent
    tasksWritable := true }

/-! ## Ordering of floats -/

theorem Float64.gt_iff_val (x y : Float64) : x.gt y ↔ y.val < x.val := by
  unfold Float64.gt Float64.val
  rw [div_lt_div_iff₀ (by positivity) (by positivity)]
  norm_cast

theorem Float64.le_iff_val (x y : Float64) : x.le y ↔ x.val ≤ y.val := by
  unfold Float64.le Float64.val
  rw [div_le_div_iff₀ (by positivity) (by positivity)]
  norm_cast

theorem Float64.le_of_not_gt {x y : Float64} (h : ¬ x.gt y) : x.le y := by
  rw [Float64.gt_iff_val] at h
  rw [Float64.le_iff_val]
  exact not_lt.mp h

theorem Float64.gt_trans {x y z : Float64} (h₁ : x.gt y) (h₂ : y.gt z) : x.gt z := by
  rw [Float64.gt_iff_val] at *
  exact lt_trans h₂ h₁

theorem Float64.gt_of_gt_of_le {x y z : Float64} (h₁ : x.gt y) (h₂ : z.le y) : x.gt z := by
  rw [Float64.gt_iff_val] at *
  rw [Float64.le_iff_val] at h₂
  exact lt_of_le_of_lt h₂ h₁

theorem Float64.le_of_gt {x y : Float64} (h : x.gt y) : y.le x := by
  rw [Float64.gt_iff_val] at h
  rw [Float64.le_iff_val]
  exact le_of_lt h

theorem Float64.le_rfl (x : Float64) : x.le x := by
  rw [Float64.le_iff_val]

theorem Float64.natAbs_signed (x : Float64) : x.signed.natAbs = x.num := by
  unfold Float64.signed
  cases x.neg <;> simp

theorem Float64.scale_eq_zero_of_num_eq_zero (x : Float64) (h : x.num = 0) : x.scale = 0 := by
  rcases x.canon with hc | hc
  · exact hc
  · rw [h] at hc; simp at hc

/-- Two canonical representations of one magnitude coincide. -/
theorem Float64.canon_unique (n k m l : Nat) (hk : k = 0 ∨ n % 2 = 1) (hl : l = 0 ∨ m % 2 = 1)
    (h : n * 2 ^ l = m * 2 ^ k) : n = m ∧ k = l := by
  rcases Nat.lt_trichotomy k l with hlt | heq | hgt
  · obtain ⟨d, rfl⟩ : ∃ d, l = k + (d + 1) := ⟨l - k - 1, by omega⟩
    have h2 : n * 2 ^ (d + 1) * 2 ^ k = m * 2 ^ k := by
      rw [← h, pow_add]; ring
    have h3 : n * 2 ^ (d + 1) = m := Nat.eq_of_mul_eq_mul_right (by positivity) h2
    have h4 : m % 2 = 0 := by
      rw [← h3, pow_succ, ← Nat.mul_assoc]; simp
    rcases hl with hl | hl <;> omega
  · subst heq
    exact ⟨Nat.eq_of_mul_eq_mul_right (by positivity) h, rfl⟩
  · obtain ⟨d, rfl⟩ : ∃ d, k = l + (d + 1) := ⟨k - l - 1, by omega⟩
    have h2 : m * 2 ^ (d + 1) * 2 ^ l = n * 2 ^ l := by
      rw [h, pow_add]; ring
    have h3 : m * 2 ^ (d + 1) = n := Nat.eq_of_mul_eq_mul_right (by positivity) h2
    have h4 : n % 2 = 0 := by
      rw [← h3, pow_succ, ← Nat.mul_assoc]; simp
    rcases hk with hk | hk <;> omega

/-- Go `==` on finite floats is identity of the floats, except that the two
zeros are equal. -/
theorem Float64.eq_iff (x y : Float64) : x.eq y ↔ x = y ∨ (x.num = 0 ∧ y.num = 0) := by
  constructor
  · intro h
    unfold Float64.eq at h
    have hmag : x.num * 2 ^ y.scale = y.num * 2 ^ x.scale := by
      have := congrArg Int.natAbs h
      simpa [Int.natAbs_mul, Int.natAbs_pow, Float64.natAbs_signed] using this
    obtain ⟨hn, hs⟩ := Float64.canon_unique x.num x.scale y.num y.scale x.canon y.canon hmag
    by_cases h0 : x.num = 0
    · exact Or.inr ⟨h0, by rw [← hn]; exact h0⟩
    · left
      rw [hs] at h
      have hsg : x.signed = y.signed :=
        Int.eq_of_mul_eq_mul_right (by positivity) h
      have hneg : x.neg = y.neg := by
        unfold Float64.signed at hsg
        rw [← hn] at hsg
        cases hx : x.neg <;> cases hy : y.neg <;> simp [hx, hy] at hsg ⊢ <;> omega
      obtain ⟨a, b, c, d⟩ := x
      obtain ⟨a', b', c', d'⟩ := y
      simp only at hn hs hneg
      subst hn; subst hs; subst hneg
      rfl
  · rintro (h | ⟨hx, hy⟩)
    · subst h; rfl
    · unfold Float64.eq Float64.signed
      simp [hx, hy]

/-! ## Maps -/

theorem GoMap.get_set_self {V : Type} (m : GoMap V) (k : String) (v : V) :
    GoMap.get (GoMap.set m k v) k = some v := by
  induction m with
  | nil => simp [GoMap.set, GoMap.get]
  | cons e rest ih =>
    obtain ⟨k', v'⟩ := e
    by_cases h : k' = k
    · simp [GoMap.set, GoMap.get, h]
    · simp [GoMap.set, GoMap.get, h, ih]

theorem GoMap.get_set_ne {V : Type} (m : GoMap V) (k j : String) (v : V) (hne : k ≠ j) :
    GoMap.get (GoMap.set m k v) j = GoMap.get m j := by
  induction m with
  | nil => simp [GoMap.set, GoMap.get, hne]
  | cons e rest ih =>
    obtain ⟨k', v'⟩ := e
    by_cases h : k' = k
    · subst h
      simp [GoMap.set, GoMap.get, hne]
    · by_cases h' : k' = j
      · subst h'
        simp [GoMap.set, GoMap.get, h]
      · simp [GoMap.set, GoMap.get, h, h', ih]

theorem GoMap.get_eq_none_iff {V : Type} (m : GoMap V) (k : String) :
    GoMap.get m k = none ↔ k ∉ m.map Prod.fst := by
  induction m with
  | nil => simp [GoMap.get]
  | cons e rest ih =>
    obtain ⟨k', v'⟩ := e
    by_cases h : k' = k
    · simp [GoMap.get, h]
    · have h' : ¬ k = k' := fun e => h e.symm
      simp [GoMap.get, h, h', ih]

theorem GoMap.mem_keys_set {V : Type} (m : GoMap V) (k j : String) (v : V) :
    j ∈ (GoMap.set m k v).map Prod.fst ↔ j = k ∨ j ∈ m.map Prod.fst := by
  induction m with
  | nil => simp [GoMap.set]
  | cons e rest ih =>
    obtain ⟨k', v'⟩ := e
    by_cases h : k' = k
    · subst h
      simp [GoMap.set]
    · simp only [GoMap.set, h, if_false, List.map_cons, List.mem_cons, ih]
      tauto

theorem GoMap.nodup_keys_set {V : Type} (m : GoMap V) (k : String) (v : V)
    (hm : (m.map Prod.fst).Nodup) : ((GoMap.set m k v).map Prod.fst).Nodup := by
  induction m with
  | nil => simp [GoMap.set]
  | cons e rest ih =>
    obtain ⟨k', v'⟩ := e
    rw [List.map_cons, List.nodup_cons] at hm
    by_cases h : k' = k
    · subst h
      simp only [GoMap.set, if_true, List.map_cons, List.nodup_cons]
      exact hm
    · simp only [GoMap.set, h, if_false, List.map_cons, List.nodup_cons]
      refine ⟨?_, ih hm.2⟩
      rw [GoMap.mem_keys_set]
      rintro (h' | h')
      · exact h h'
      · exact hm.1 h'

theorem GoMap.get_of_mem {V : Type} (m : GoMap V) (hm : (m.map Prod.fst).Nodup)
    (k : String) (v : V) (h : (k, v) ∈ m) : GoMap.get m k = some v := by
  induction m with
  | nil => simp at h
  | cons e rest ih =>
    obtain ⟨k', v'⟩ := e
    rw [List.map_cons, List.nodup_cons] at hm
    rcases List.mem_cons.mp h with h | h
    · injection h with h₁ h₂
      subst h₁; subst h₂
      simp [GoMap.get]
    · have hk : k ∈ rest.map Prod.fst := List.mem_map.mpr ⟨(k, v), h, rfl⟩
      have hne : ¬ k' = k := fun e => hm.1 (e ▸ hk)
      simp [GoMap.get, hne, ih hm.2 h]

theorem collect_eq_map (m : GoMap TechAssignment) : collect m = m.map Prod.snd := by
  unfold collect
  have h : ∀ (init : List TechAssignment),
      m.foldl (fun assignments e => assignments ++ [e.2]) init = init ++ m.map Prod.snd := by
    induction m with
    | nil => intro init; simp
    | cons e rest ih => intro init; simp [ih]
  simpa using h []

/-! ## The selection loop -/

theorem selectLoop_append (l : List ModelOutput) (p : ModelOutput) :
    selectLoop (l ++ [p]) = selectStep (selectLoop l) p := by
  simp [selectLoop, List.foldl_append]

theorem winner_append (k : String) (l : List ModelOutput) (p : ModelOutput) :
    winner k (l ++ [p]) = winStep k (winner k l) p := by
  simp [winner, List.foldl_append]

theorem selectStep_none (st : SelState) (p : ModelOutput)
    (h : GoMap.get st.bestScores p.key = none) : selectStep st p = st.install p.key p := by
  unfold selectStep
  simp only [ModelOutput.key] at h
  simp only [h]
  rfl

theorem selectStep_some (st : SelState) (p : ModelOutput) (score : Float64)
    (h : GoMap.get st.bestScores p.key = some score) :
    selectStep st p =
      if Float64.gt p.Possibility score then st.install p.key p else st := by
  unfold selectStep
  simp only [ModelOutput.key] at h
  simp only [h]
  rfl

theorem install_get (st : SelState) (p : ModelOutput) (k : String) :
    GoMap.get (st.install p.key p).bestScores k =
        (if p.key = k then some p.Possibility else GoMap.get st.bestScores k) ∧
      GoMap.get (st.install p.key p).bestAssignments k =
        (if p.key = k then some p.toAssignment else GoMap.get st.bestAssignments k) := by
  by_cases h : p.key = k
  · subst h
    simp [SelState.install, GoMap.get_set_self]
  · simp [SelState.install, GoMap.get_set_ne _ _ _ _ h, h]

/-- The two maps of the loop hold, under every key, the probability and the
assignment of the winner of that key. -/
theorem selectLoop_get (preds : List ModelOutput) : ∀ k : String,
    GoMap.get (selectLoop preds).bestScores k =
        (winner k preds).map ModelOutput.Possibility ∧
      GoMap.get (selectLoop preds).bestAssignments k =
        (winner k preds).map ModelOutput.toAssignment := by
  induction preds using List.reverseRecOn with
  | nil => intro k; simp [selectLoop, winner, GoMap.get]
  | append_singleton l p ih =>
    intro k
    rw [selectLoop_append, winner_append]
    have hp := (ih p.key).1
    have hk := ih k
    cases hw : winner p.key l with
    | none =>
      rw [hw] at hp
      rw [selectStep_none _ _ (by simpa using hp)]
      have hi := install_get (selectLoop l) p k
      by_cases hkk : p.key = k
      · subst hkk
        simp [hi.1, hi.2, winStep, hw]
      · simp [hi.1, hi.2, winStep, hkk, hk.1, hk.2]
    | some c =>
      rw [hw] at hp
      rw [selectStep_some _ _ c.Possibility (by simpa using hp)]
      have hi := install_get (selectLoop l) p k
      by_cases hgt : Float64.gt p.Possibility c.Possibility
      · rw [if_pos hgt]
        by_cases hkk : p.key = k
        · subst hkk
          simp [hi.1, hi.2, winStep, hw, hgt]
        · simp [hi.1, hi.2, winStep, hkk, hk.1, hk.2]
      · rw [if_neg hgt]
        by_cases hkk : p.key = k
        · subst hkk
          simp [winStep, hw, hgt, hk.1, hk.2]
        · simp [winStep, hkk, hk.1, hk.2]

/-- No winner under a key exactly when no record has that key. -/
theorem winner_eq_none_iff (k : String) (preds : List ModelOutput) :
    winner k preds = none ↔ ∀ x ∈ preds, x.key ≠ k := by
  induction preds using List.reverseRecOn with
  | nil => simp [winner]
  | append_singleton l p ih =>
    rw [winner_append]
    by_cases hkk : p.key = k
    · have : winStep k (winner k l) p ≠ none := by
        unfold winStep
        rw [if_pos hkk]
        cases winner k l with
        | none => simp
        | some c => by_cases hgt : Float64.gt p.Possibility c.Possibility <;> simp [hgt]
      constructor
      · intro h; exact absurd h this
      · intro h; exact absurd hkk (h p (by simp))
    · have : winStep k (winner k l) p = winner k l := by simp [winStep, hkk]
      rw [this, ih]
      constructor
      · intro h x hx
        rcases List.mem_append.mp hx with hx | hx
        · exact h x hx
        · have : x = p := by simpa using hx
          subst this; exact hkk
      · intro h x hx
        exact h x (List.mem_append.mpr (Or.inl hx))

/-- The winner of a key is a record of that key; every earlier record of the key
has a strictly smaller probability and no later one has a greater probability. -/
theorem winner_spec (k : String) (preds : List ModelOutput) (w : ModelOutput)
    (h : winner k preds = some w) :
    ∃ pre post, preds = pre ++ w :: post ∧ w.key = k ∧
      (∀ x ∈ pre, x.key = k → Float64.gt w.Possibility x.Possibility) ∧
      (∀ x ∈ post, x.key = k → Float64.le x.Possibility w.Possibility) := by
  induction preds using List.reverseRecOn generalizing w with
  | nil => simp [winner] at h
  | append_singleton l p ih =>
    rw [winner_append] at h
    by_cases hkk : p.key = k
    · unfold winStep at h
      rw [if_pos hkk] at h
      cases hw : winner k l with
      | none =>
        rw [hw] at h
        simp only [Option.some.injEq] at h
        subst h
        refine ⟨l, [], rfl, hkk, ?_, by simp⟩
        intro x hx hxk
        exact absurd hxk ((winner_eq_none_iff k l).mp hw x hx)
      | some c =>
        rw [hw] at h
        obtain ⟨pre, post, hl, hck, hpre, hpost⟩ := ih c hw
        by_cases hgt : Float64.gt p.Possibility c.Possibility
        · simp only [hgt, if_true, Option.some.injEq] at h
          subst h
          refine ⟨l, [], rfl, hkk, ?_, by simp⟩
          intro x hx hxk
          rw [hl] at hx
          rcases List.mem_append.mp hx with hx | hx
          · exact Float64.gt_trans hgt (hpre x hx hxk)
          · rcases List.mem_cons.mp hx with hx | hx
            · subst hx; exact hgt
            · exact Float64.gt_of_gt_of_le hgt (hpost x hx hxk)
        · simp only [hgt, if_false, Option.some.injEq] at h
          subst h
          refine ⟨pre, post ++ [p], by simp [hl], hck, hpre, ?_⟩
          intro x hx hxk
          rcases List.mem_append.mp hx with hx | hx
          · exact hpost x hx hxk
          · have : x = p := by simpa using hx
            subst this
            exact Float64.le_of_not_gt hgt
    · have hs : winStep k (winner k l) p = winner k l := by simp [winStep, hkk]
      rw [hs] at h
      obtain ⟨pre, post, hl, hck, hpre, hpost⟩ := ih w h
      refine ⟨pre, post ++ [p], by simp [hl], hck, hpre, ?_⟩
      intro x hx hxk
      rcases List.mem_append.mp hx with hx | hx
      · exact hpost x hx hxk
      · have : x = p := by simpa using hx
        subst this
        exact absurd hxk hkk

theorem selectStep_cases (st : SelState) (p : ModelOutput) :
    selectStep st p = st.install p.key p ∨ selectStep st p = st := by
  cases h : GoMap.get st.bestScores p.key with
  | none => exact Or.inl (selectStep_none st p h)
  | some score =>
    rw [selectStep_some st p score h]
    by_cases hgt : Float64.gt p.Possibility score
    · exact Or.inl (if_pos hgt)
    · exact Or.inr (if_neg hgt)

/-- The keys of `bestAssignments` stay distinct. -/
theorem selectLoop_nodup (preds : List ModelOutput) :
    ((selectLoop preds).bestAssignments.map Prod.fst).Nodup := by
  induction preds using List.reverseRecOn with
  | nil => simp [selectLoop]
  | append_singleton l p ih =>
    rw [selectLoop_append]
    rcases selectStep_cases (selectLoop l) p with h | h
    · rw [h]
      exact GoMap.nodup_keys_set _ _ _ ih
    · rw [h]; exact ih

/-- The keys of `bestAssignments` are the keys of the records. -/
theorem selectLoop_mem_keys (preds : List ModelOutput) (k : String) :
    k ∈ (selectLoop preds).bestAssignments.map Prod.fst ↔ ∃ x ∈ preds, x.key = k := by
  have h₁ := GoMap.get_eq_none_iff (selectLoop preds).bestAssignments k
  have h₂ := (selectLoop_get preds k).2
  have h₃ := winner_eq_none_iff k preds
  constructor
  · intro hk
    by_contra hne
    push_neg at hne
    rw [h₃.mpr hne] at h₂
    exact (h₁.mp (by simpa using h₂)) hk
  · rintro ⟨x, hx, hxk⟩
    by_contra hk
    have hnone := h₁.mpr hk
    rw [hnone] at h₂
    have : winner k preds = none := by
      cases hw : winner k preds with
      | none => rfl
      | some w => rw [hw] at h₂; simp at h₂
    exact (h₃.mp this x hx) hxk

/-- Every entry of `bestAssignments` is the assignment of the winner of its key. -/
theorem selectLoop_entry (preds : List ModelOutput) (k : String) (a : TechAssignment)
    (h : (k, a) ∈ (selectLoop preds).bestAssignments) :
    ∃ w, winner k preds = some w ∧ a = w.toAssignment := by
  have hg := GoMap.get_of_mem _ (selectLoop_nodup preds) k a h
  rw [(selectLoop_get preds k).2] at hg
  cases hw : winner k preds with
  | none => rw [hw] at hg; simp at hg
  | some w =>
    rw [hw] at hg
    simp only [Option.map_some', Option.some.injEq] at hg
    exact ⟨w, rfl, hg.symm⟩

theorem selectLoop_entry_key (preds : List ModelOutput) (e : String × TechAssignment)
    (h : e ∈ (selectLoop preds).bestAssignments) : e.2.key = e.1 := by
  obtain ⟨k, a⟩ := e
  obtain ⟨w, hw, ha⟩ := selectLoop_entry preds k a h
  obtain ⟨_, _, _, hk, _, _⟩ := winner_spec k preds w hw
  rw [ha]
  exact hk

theorem mem_pickBest (preds : List ModelOutput) (a : TechAssignment) :
    a ∈ pickBest preds ↔ ∃ k, (k, a) ∈ (selectLoop preds).bestAssignments := by
  unfold pickBest
  rw [collect_eq_map, List.mem_map]
  constructor
  · rintro ⟨⟨k, b⟩, he, hb⟩
    simp only at hb
    subst hb
    exact ⟨k, he⟩
  · rintro ⟨k, he⟩
    exact ⟨(k, a), he, rfl⟩

theorem filter_key_nil (m : GoMap TechAssignment) (hinv : ∀ e ∈ m, e.2.key = e.1)
    (k : String) (hk : k ∉ m.map Prod.fst) :
    (m.map Prod.snd).filter (fun x => decide (x.key = k)) = [] := by
  rw [List.filter_eq_nil_iff]
  intro x hx
  obtain ⟨e, he, hxe⟩ := List.mem_map.mp hx
  subst hxe
  simp only [decide_eq_true_eq]
  intro hek
  rw [hinv e he] at hek
  exact hk (List.mem_map.mpr ⟨e, he, hek⟩)

theorem filter_key_singleton (m : GoMap TechAssignment)
    (hm : (m.map Prod.fst).Nodup) (hinv : ∀ e ∈ m, e.2.key = e.1)
    (k : String) (a : TechAssignment) (h : GoMap.get m k = some a) :
    (m.map Prod.snd).filter (fun x => decide (x.key = k)) = [a] := by
  induction m with
  | nil => simp [GoMap.get] at h
  | cons e rest ih =>
    obtain ⟨k', v⟩ := e
    rw [List.map_cons, List.nodup_cons] at hm
    have hv : v.key = k' := hinv (k', v) (List.mem_cons_self _ _)
    have hrest : ∀ e ∈ rest, e.2.key = e.1 := fun e he => hinv e (List.mem_cons_of_mem _ he)
    by_cases hkk : k' = k
    · subst hkk
      simp only [GoMap.get, if_true, Option.some.injEq] at h
      subst h
      rw [List.map_cons, List.filter_cons_of_pos (by simpa using hv),
        filter_key_nil rest hrest k' hm.1]
    · simp only [GoMap.get, hkk, if_false] at h
      have hvk : ¬ v.key = k := by rw [hv]; exact hkk
      rw [List.map_cons, List.filter_cons_of_neg (by simpa using hvk)]
      exact ih hm.2 hrest h

theorem key_eq_sigKey (p : ModelOutput) : p.key = sigKey p.signature := rfl

theorem toAssignment_signature (p : ModelOutput) : p.toAssignment.signature = p.signature := rfl

/-! ## Properties of the selector -/

/-- C1, as the code has it: for every permutation `out` of the assignments the
loop yields and every record `r` of the input, `out` contains exactly one
assignment whose key `taskKey` is the key of `r`; it is the assignment built
from a record `w` of that key, the score stored under the key is the probability
of `w`, and no record of that key has a greater probability. -/
theorem selector_best_per_key (preds : List ModelOutput) (out : List TechAssignment)
    (hperm : out.Perm (pickBest preds)) (r : ModelOutput) (hr : r ∈ preds) :
    ∃ w ∈ preds, w.key = r.key ∧
      out.filter (fun a => decide (a.key = r.key)) = [w.toAssignment] ∧
      GoMap.get (selectLoop preds).bestScores r.key = some w.Possibility ∧
      ∀ x ∈ preds, x.key = r.key → Float64.le x.Possibility w.Possibility := by
  cases hw : winner r.key preds with
  | none => exact absurd rfl ((winner_eq_none_iff r.key preds).mp hw r hr)
  | some w =>
    obtain ⟨pre, post, hl, hk, hpre, hpost⟩ := winner_spec r.key preds w hw
    have hget := selectLoop_get preds r.key
    rw [hw] at hget
    refine ⟨w, by rw [hl]; simp, hk, ?_, by simpa using hget.1, ?_⟩
    · have hf : (pickBest preds).filter (fun a => decide (a.key = r.key)) = [w.toAssignment] := by
        unfold pickBest
        rw [collect_eq_map]
        exact filter_key_singleton _ (selectLoop_nodup preds) (selectLoop_entry_key preds)
          r.key w.toAssignment (by simpa using hget.2)
      have hp := hperm.filter (fun a => decide (a.key = r.key))
      rw [hf] at hp
      exact List.perm_singleton.mp hp
    · intro x hx hxk
      rw [hl] at hx
      rcases List.mem_append.mp hx with hx | hx
      · exact Float64.le_of_gt (hpre x hx hxk)
      · rcases List.mem_cons.mp hx with hx | hx
        · subst hx; exact Float64.le_rfl _
        · exact hpost x hx hxk

/-- Scenario A: the one assignment returned for the key of record `A` is the one
of technician `B`. -/
theorem selector_best_per_key_witness :
    ∃ w ∈ scenarioA, w.key = (⟨"A", 1, two, 5, sixTenths⟩ : ModelOutput).key ∧
      (pickBest scenarioA).filter
          (fun a => decide (a.key = (⟨"A", 1, two, 5, sixTenths⟩ : ModelOutput).key)) =
        [w.toAssignment] ∧
      GoMap.get (selectLoop scenarioA).bestScores
          (⟨"A", 1, two, 5, sixTenths⟩ : ModelOutput).key = some w.Possibility ∧
      ∀ x ∈ scenarioA, x.key = (⟨"A", 1, two, 5, sixTenths⟩ : ModelOutput).key →
        Float64.le x.Possibility w.Possibility :=
  selector_best_per_key scenarioA (pickBest scenarioA) (List.Perm.refl _)
    ⟨"A", 1, two, 5, sixTenths⟩ (by decide)

/-- C1 fails as stated: the signature `(1, 2.001953125, 5)` occurs in
`mergedKeys`, and the loop returns the single assignment of technician `A` with
signature `(1, 2.0, 5)`, so no returned assignment has that signature. -/
theorem selector_signature_counterexample :
    ((1, twoPlus, 5) : TaskSignature) ∈ mergedKeys.map ModelOutput.signature ∧
      pickBest mergedKeys = [⟨"A", 1, two, 5⟩] ∧
      ∀ a ∈ pickBest mergedKeys, a.signature ≠ ((1, twoPlus, 5) : TaskSignature) := by
  decide

/-- Every assignment `a` the loop returns (in any order `out`), with stored
signature `s`, carries the technician of a record `w` of stored signature `s`
such that every earlier record with that stored signature has a strictly smaller
probability and no later one has a greater probability. -/
theorem tie_break_within_signature (preds : List ModelOutput) (out : List TechAssignment)
    (hperm : out.Perm (pickBest preds)) (s : TaskSignature) (a : TechAssignment)
    (ha : a ∈ out) (hs : a.signature = s) :
    ∃ pre w post, preds = pre ++ w :: post ∧ w.signature = s ∧
      a.TechnicianID = w.TechnicianID ∧
      (∀ x ∈ pre, x.signature = s → Float64.gt w.Possibility x.Possibility) ∧
      (∀ x ∈ post, x.signature = s → Float64.le x.Possibility w.Possibility) := by
  obtain ⟨k, hka⟩ := (mem_pickBest preds a).mp (hperm.mem_iff.mp ha)
  obtain ⟨w, hw, haw⟩ := selectLoop_entry preds k a hka
  obtain ⟨pre, post, hl, hk, hpre, hpost⟩ := winner_spec k preds w hw
  have hws : w.signature = s := by rw [← hs, haw, toAssignment_signature]
  have hkey : ∀ x : ModelOutput, x.signature = s → x.key = k := by
    intro x hx
    rw [key_eq_sigKey, hx, ← hws, ← key_eq_sigKey, hk]
  refine ⟨pre, w, post, hl, hws, by rw [haw]; rfl, ?_, ?_⟩
  · intro x hx hxs
    exact hpre x hx (hkey x hxs)
  · intro x hx hxs
    exact hpost x hx (hkey x hxs)

/-- C2 fails as stated: in `tiedKeys` the signature `(1, 2.001953125, 5)` is
present and technician `Y` holds its only record, hence its first record of
maximal probability; the loop returns the single assignment of technician `X`,
so no returned assignment carries `Y`. -/
theorem tie_break_signature_counterexample :
    tiedKeys.filter (fun p => decide (p.signature = ((1, twoPlus, 5) : TaskSignature))) =
        [⟨"Y", 1, twoPlus, 5, half⟩] ∧
      pickBest tiedKeys = [⟨"X", 1, two, 5⟩] ∧
      ∀ a ∈ pickBest tiedKeys, a.TechnicianID ≠ "Y" := by
  decide

/-- C2, as the code has it: for every permutation `out` of the assignments the
loop yields and every record `r` of the input, the one assignment of `out` under
the key of `r` is built from a record `w` of that key, so it carries the
technician of `w`; every record of the key before `w` has a strictly smaller
probability and no record of the key after `w` has a greater one, so `w` is the
first record of the key, in input order, that reaches the maximum of the key. -/
theorem tie_break_first_seen (preds : List ModelOutput) (out : List TechAssignment)
    (hperm : out.Perm (pickBest preds)) (r : ModelOutput) (hr : r ∈ preds) :
    ∃ pre w post a, preds = pre ++ w :: post ∧ w.key = r.key ∧
      out.filter (fun b => decide (b.key = r.key)) = [a] ∧
      a.TechnicianID = w.TechnicianID ∧ a.signature = w.signature ∧
      (∀ x ∈ pre, x.key = r.key → Float64.gt w.Possibility x.Possibility) ∧
      (∀ x ∈ post, x.key = r.key → Float64.le x.Possibility w.Possibility) := by
  cases hw : winner r.key preds with
  | none => exact absurd rfl ((winner_eq_none_iff r.key preds).mp hw r hr)
  | some w =>
    obtain ⟨pre, post, hl, hk, hpre, hpost⟩ := winner_spec r.key preds w hw
    have hget := (selectLoop_get preds r.key).2
    rw [hw] at hget
    have hf : (pickBest preds).filter (fun b => decide (b.key = r.key)) = [w.toAssignment] := by
      unfold pickBest
      rw [collect_eq_map]
      exact filter_key_singleton _ (selectLoop_nodup preds) (selectLoop_entry_key preds)
        r.key w.toAssignment (by simpa using hget)
    have hp := hperm.filter (fun b => decide (b.key = r.key))
    rw [hf] at hp
    exact ⟨pre, w, post, w.toAssignment, hl, hk, List.perm_singleton.mp hp, rfl, rfl, hpre, hpost⟩

/-- Scenario B: of `X` and `Y`, tied at 0.5 on one signature, the assignment
returned under their key carries the first record that reaches the maximum. -/
theorem tie_break_first_seen_witness :
    ∃ pre w post a, scenarioB = pre ++ w :: post ∧
      w.key = (⟨"Y", 1, two, 5, half⟩ : ModelOutput).key ∧
      (pickBest scenarioB).filter
          (fun b => decide (b.key = (⟨"Y", 1, two, 5, half⟩ : ModelOutput).key)) = [a] ∧
      a.TechnicianID = w.TechnicianID ∧ a.signature = w.signature ∧
      (∀ x ∈ pre, x.key = (⟨"Y", 1, two, 5, half⟩ : ModelOutput).key →
        Float64.gt w.Possibility x.Possibility) ∧
      (∀ x ∈ post, x.key = (⟨"Y", 1, two, 5, half⟩ : ModelOutput).key →
        Float64.le x.Possibility w.Possibility) :=
  tie_break_first_seen scenarioB (pickBest scenarioB) (List.Perm.refl _)
    ⟨"Y", 1, two, 5, half⟩ (by decide)

/-- Scenario B evaluated: the loop returns the assignment of `X`, the first of
the two tied records. -/
theorem scenarioB_first_seen : pickBest scenarioB = [⟨"X", 1, two, 5⟩] := by
  decide

/-- Two floats that Go `==` equates and that are not the same float are the two
zeros. -/
theorem Float64.zeros_of_eq_of_ne (x y : Float64) (h : x.eq y) (hne : x ≠ y) :
    x.num = 0 ∧ y.num = 0 ∧ x.neg ≠ y.neg := by
  rcases (Float64.eq_iff x y).mp h with h | ⟨hx, hy⟩
  · exact absurd h hne
  · refine ⟨hx, hy, ?_⟩
    intro hneg
    apply hne
    have hsx := Float64.scale_eq_zero_of_num_eq_zero x hx
    have hsy := Float64.scale_eq_zero_of_num_eq_zero y hy
    obtain ⟨a, b, c, d⟩ := x
    obtain ⟨a', b', c', d'⟩ := y
    simp only at hx hy hsx hsy hneg
    subst hx; subst hy; subst hsx; subst hsy; subst hneg
    rfl

/-- C5 fails as stated: the two records of `signedZeros` have one signature as
decimal values (priority 1, duration zero, distance 5), and the loop returns two
assignments, with durations `-0.0` and `0.0`, whose signatures are equal. -/
theorem one_winner_signed_zero_counterexample :
    (∀ p ∈ signedZeros, ∀ q ∈ signedZeros, sameSignature p.signature q.signature) ∧
      pickBest signedZeros = [⟨"A", 1, Float64.negZero, 5⟩, ⟨"B", 1, Float64.zero, 5⟩] ∧
      sameSignature (⟨"A", 1, Float64.negZero, 5⟩ : TechAssignment).signature
        (⟨"B", 1, Float64.zero, 5⟩ : TechAssignment).signature ∧
      (pickBest signedZeros).length = 2 := by
  decide

/-- C5, as the code has it: in every order `out` of the assignments one run
yields, no two entries have the same key `taskKey`, hence no two entries have
the same stored signature; two entries whose signatures are equal as decimal
values (`sameSignature`) have the durations `-0.0` and `0.0`; `out` is no longer
than the number of distinct stored signatures of the input, and it is empty for
the empty input. -/
theorem one_winner_per_key (preds : List ModelOutput) (out : List TechAssignment)
    (hperm : out.Perm (pickBest preds)) :
    (out.map TechAssignment.key).Nodup ∧
      (out.map TechAssignment.signature).Nodup ∧
      out.Pairwise (fun a b => sameSignature a.signature b.signature →
        a.TaskDuration.num = 0 ∧ b.TaskDuration.num = 0 ∧
          a.TaskDuration.neg ≠ b.TaskDuration.neg) ∧
      out.length ≤ ((preds.map ModelOutput.signature).dedup).length ∧
      (preds = [] → out = []) := by
  have hpick : pickBest preds = (selectLoop preds).bestAssignments.map Prod.snd := by
    unfold pickBest; rw [collect_eq_map]
  have hkeys : (pickBest preds).map TechAssignment.key =
      (selectLoop preds).bestAssignments.map Prod.fst := by
    rw [hpick, List.map_map]
    apply List.map_congr_left
    intro e he
    exact selectLoop_entry_key preds e he
  have hk : ((pickBest preds).map TechAssignment.key).Nodup := by
    rw [hkeys]; exact selectLoop_nodup preds
  have hsig : (out.map TechAssignment.signature).Nodup := by
    have hs : ((pickBest preds).map TechAssignment.signature).Nodup := by
      have : (pickBest preds).map TechAssignment.key =
          ((pickBest preds).map TechAssignment.signature).map sigKey := by
        rw [List.map_map]; rfl
      rw [this] at hk
      exact List.Nodup.of_map sigKey hk
    exact ((hperm.map TechAssignment.signature).nodup_iff).mpr hs
  refine ⟨((hperm.map TechAssignment.key).nodup_iff).mpr hk, hsig, ?_, ?_, ?_⟩
  · have hpw := List.pairwise_map.mp hsig
    refine hpw.imp ?_
    intro a b hne hsame
    obtain ⟨h₁, h₂, h₃⟩ := hsame
    apply Float64.zeros_of_eq_of_ne _ _ h₂
    intro hd
    apply hne
    have hd' : a.TaskDuration = b.TaskDuration := hd
    simp only [TechAssignment.signature] at h₁ h₃ ⊢
    rw [h₁, hd', h₃]
  · have hlen : out.length = ((selectLoop preds).bestAssignments.map Prod.fst).length := by
      rw [hperm.length_eq, hpick, List.length_map, List.length_map]
    rw [hlen, ← List.toFinset_card_of_nodup (selectLoop_nodup preds), ← List.card_toFinset]
    calc ((selectLoop preds).bestAssignments.map Prod.fst).toFinset.card
        ≤ ((preds.map ModelOutput.signature).toFinset.image sigKey).card := by
          apply Finset.card_le_card
          intro k hk
          rw [List.mem_toFinset] at hk
          obtain ⟨x, hx, hxk⟩ := (selectLoop_mem_keys preds k).mp hk
          rw [Finset.mem_image]
          refine ⟨x.signature, ?_, ?_⟩
          · rw [List.mem_toFinset]; exact List.mem_map.mpr ⟨x, hx, rfl⟩
          · rw [← key_eq_sigKey]; exact hxk
      _ ≤ (preds.map ModelOutput.signature).toFinset.card := Finset.card_image_le
  · intro hnil
    subst hnil
    have : pickBest [] = [] := rfl
    rw [this] at hperm
    exact List.perm_nil.mp hperm

/-- The two zeros of `signedZeros`, read in the order of the map entries: two
keys, two stored signatures, and the pair of durations `-0.0` and `0.0`. -/
theorem one_winner_per_key_witness :
    ((pickBest signedZeros).map TechAssignment.key).Nodup ∧
      ((pickBest signedZeros).map TechAssignment.signature).Nodup ∧
      (pickBest signedZeros).Pairwise (fun a b => sameSignature a.signature b.signature →
        a.TaskDuration.num = 0 ∧ b.TaskDuration.num = 0 ∧
          a.TaskDuration.neg ≠ b.TaskDuration.neg) ∧
      (pickBest signedZeros).length ≤ ((signedZeros.map ModelOutput.signature).dedup).length ∧
      (signedZeros = [] → pickBest signedZeros = []) :=
  one_winner_per_key signedZeros (pickBest signedZeros) (List.Perm.refl _)

/-! ## The reference library -/

theorem refCodec_roundTrip : refCodec.RoundTrip := by
  intro ts b h
  simp only [refCodec, Option.some.injEq] at h
  subst h
  simp only [refCodec, Doc.decodeArray, List.map_map, Option.some.injEq]
  conv_rhs => rw [← List.map_id ts]
  apply List.map_congr_left
  intro t _
  rfl

theorem refCodec_projects : refCodec.Projects := by
  intro b recs h
  cases b with
  | array rs =>
    simp only [refCodec, Doc.decodeArray, Option.some.injEq] at h
    subst h
    simp only [refCodec, Doc.decodeArray, List.map_map, Option.some.injEq]
    apply List.map_congr_left
    intro r _
    rfl
  | empty => simp [refCodec, Doc.decodeArray] at h
  | malformed => simp [refCodec, Doc.decodeArray] at h
  | object r => simp [refCodec, Doc.decodeArray] at h

/-! ## Properties of the handlers -/

theorem filterByTechnician_eq_filter (allTasks : List AssignedTask) (techID : String) :
    filterByTechnician allTasks techID =
      allTasks.filter (fun r => decide (r.TechnicianID = techID)) := by
  unfold filterByTechnician
  have h : ∀ (init : List AssignedTask),
      allTasks.foldl (fun filtered newtask =>
          if newtask.TechnicianID = techID then filtered ++ [newtask] else filtered) init =
        init ++ allTasks.filter (fun r => decide (r.TechnicianID = techID)) := by
    induction allTasks with
    | nil => intro init; simp
    | cons a rest ih =>
      intro init
      by_cases ha : a.TechnicianID = techID
      · simp [ih, ha]
      · simp [ih, ha]
  simpa using h []

/-- On a prediction file that is read and parsed, `PickBestTech` answers 200 with
the assignments of the selection loop. -/
theorem PickBestTech_ok {B : Type} (J : Codec B) (fs : FS B) (data : B)
    (predictions : List ModelOutput) (hfile : fs.predictions = .data data)
    (hparse : J.unmarshalPredictions data = some predictions) :
    PickBestTech J fs = ⟨StatusOK, .assignments (pickBest predictions)⟩ := by
  unfold PickBestTech
  simp only [hfile, hparse]

/-- C3 fails on the code: starting with no file, two successful calls of
`CreateTaskHandler`, for `taskC` then `taskD`, are followed by a listing that
holds `taskD` alone, not `[taskC, taskD]`. -/
theorem create_twice_then_list :
    (createAll refCodec (FS.fresh Doc)
        [some (Doc.object (Row.ofNewTask taskC)), some (Doc.object (Row.ofNewTask taskD))]).2
      = [⟨StatusCreated, .text "Added New Task"⟩, ⟨StatusCreated, .text "Added New Task"⟩] ∧
    ViewAllNewTasksHandler refCodec
        (createAll refCodec (FS.fresh Doc)
          [some (Doc.object (Row.ofNewTask taskC)),
            some (Doc.object (Row.ofNewTask taskD))]).1
      = ⟨StatusOK, .tasks [taskD]⟩ ∧
    ViewAllNewTasksHandler refCodec
        (createAll refCodec (FS.fresh Doc)
          [some (Doc.object (Row.ofNewTask taskC)),
            some (Doc.object (Row.ofNewTask taskD))]).1
      ≠ ⟨StatusOK, .tasks [taskC, taskD]⟩ := by
  decide

/-- C4: on a readable store and a non-empty identifier `t`, the handler answers
200 with the stored records of technician `t`: the result is the sublist of the
store selected by `TechnicianID = t`, each of its records matches `t`, each
matching record occurs as often as in the store, and it is the empty list when
no record matches. -/
theorem filter_by_technician_correct {B : Type} (J : Codec B) (fs : FS B) (data : B)
    (allTasks : List AssignedTask) (t : String)
    (hfile : fs.training = .data data) (hparse : J.unmarshalAssigned data = some allTasks)
    (ht : t ≠ "") :
    ∃ filtered, ViewAssignedTasksHandler J fs t = ⟨StatusOK, .assigned filtered⟩ ∧
      filtered = allTasks.filter (fun r => decide (r.TechnicianID = t)) ∧
      filtered.Sublist allTasks ∧
      (∀ r ∈ filtered, r.TechnicianID = t) ∧
      (∀ r : AssignedTask, r.TechnicianID = t → filtered.count r = allTasks.count r) ∧
      ((∀ r ∈ allTasks, r.TechnicianID ≠ t) → filtered = []) := by
  refine ⟨filterByTechnician allTasks t, ?_, filterByTechnician_eq_filter allTasks t, ?_, ?_, ?_, ?_⟩
  · unfold ViewAssignedTasksHandler
    simp only [hfile, hparse, if_neg ht]
  · rw [filterByTechnician_eq_filter]
    exact List.filter_sublist _
  · intro r hr
    rw [filterByTechnician_eq_filter] at hr
    simpa using (List.mem_filter.mp hr).2
  · intro r hr
    rw [filterByTechnician_eq_filter]
    exact List.count_filter (by simpa using hr)
  · intro hnone
    rw [filterByTechnician_eq_filter, List.filter_eq_nil_iff]
    intro r hr
    simpa using hnone r hr

/-- The records of technician `T2` in the store `populated`. -/
theorem filter_by_technician_correct_witness :
    ∃ filtered, ViewAssignedTasksHandler refCodec populated "T2" =
        ⟨StatusOK, .assigned filtered⟩ ∧
      filtered = (trainingRows.map Row.toAssignedTask).filter
        (fun r => decide (r.TechnicianID = "T2")) ∧
      filtered.Sublist (trainingRows.map Row.toAssignedTask) ∧
      (∀ r ∈ filtered, r.TechnicianID = "T2") ∧
      (∀ r : AssignedTask, r.TechnicianID = "T2" →
        filtered.count r = (trainingRows.map Row.toAssignedTask).count r) ∧
      ((∀ r ∈ trainingRows.map Row.toAssignedTask, r.TechnicianID ≠ "T2") → filtered = []) :=
  filter_by_technician_correct refCodec populated (Doc.array trainingRows)
    (trainingRows.map Row.toAssignedTask) "T2" rfl rfl (by decide)

/-- C6: with a well-formed task in the body, when the file that
`CreateTaskHandler` loads exists and does not parse as a task list, the handler
answers 500 and the file system is the one before the call. -/
theorem create_on_corrupt_store {B : Type} (J : Codec B) (fs : FS B) (data fileData : B)
    (t : NewTask) (hne : J.isEmpty data = false) (ht : J.unmarshalTask data = some t)
    (hfile : fs.training = .data fileData) (hbad : J.unmarshalTasks fileData = none) :
    CreateTaskHandler J fs (some data) =
      (fs, httpError "Error parsing existing tasks" StatusInternalServerError) := by
  unfold CreateTaskHandler loadExisting
  simp only [hne, ht, hfile, hbad]
  rfl

/-- The store `corrupted` is left as it was by a submission of `taskC`. -/
theorem create_on_corrupt_store_witness :
    CreateTaskHandler refCodec corrupted (some (Doc.object (Row.ofNewTask taskC))) =
      (corrupted, httpError "Error parsing existing tasks" StatusInternalServerError) :=
  create_on_corrupt_store refCodec corrupted (Doc.object (Row.ofNewTask taskC)) Doc.malformed
    taskC (by decide) rfl rfl rfl

/-- C7 fails as stated: with the empty identifier the handler answers 500, not
400, when the store file is absent and when it does not parse. -/
theorem empty_technician_counterexample :
    ViewAssignedTasksHandler refCodec (FS.fresh Doc) "" =
        httpError "Failed to read assigned task file" StatusInternalServerError ∧
      ViewAssignedTasksHandler refCodec corrupted "" =
        httpError "Failed to parse task file" StatusInternalServerError ∧
      (ViewAssignedTasksHandler refCodec (FS.fresh Doc) "").status ≠ StatusBadRequest ∧
      (ViewAssignedTasksHandler refCodec corrupted "").status ≠ StatusBadRequest := by
  decide

/-- C7, as the code has it: with the empty identifier the handler never returns
records; it answers 400 when the store file is read and parsed, and 500 when the
file is absent, unreadable or unparseable, so the status is 400 exactly when the
store is present and parseable. -/
theorem empty_technician_rejected {B : Type} (J : Codec B) (fs : FS B) :
    (∀ recs, (ViewAssignedTasksHandler J fs "").body ≠ .assigned recs) ∧
      ((ViewAssignedTasksHandler J fs "").status = StatusBadRequest ∨
        (ViewAssignedTasksHandler J fs "").status = StatusInternalServerError) ∧
      ((ViewAssignedTasksHandler J fs "").status = StatusBadRequest ↔
        ∃ data allTasks, fs.training = .data data ∧ J.unmarshalAssigned data = some allTasks) := by
  unfold ViewAssignedTasksHandler
  cases hf : fs.training with
  | absent => simp [httpError, StatusBadRequest, StatusInternalServerError]
  | unreadable => simp [httpError, StatusBadRequest, StatusInternalServerError]
  | data d =>
    cases hp : J.unmarshalAssigned d with
    | none => simp [httpError, StatusBadRequest, StatusInternalServerError, hp]
    | some allTasks => simp [httpError, StatusBadRequest, StatusInternalServerError, hp]

/-- C8 fails as stated: the listing answers an absent `./tasks.json` and an
unreadable one with the same response. -/
theorem list_absent_counterexample :
    ViewAllNewTasksHandler refCodec (FS.fresh Doc) =
      ViewAllNewTasksHandler refCodec { FS.fresh Doc with tasks := .unreadable } := by
  decide

/-- C8, as the code has it: an absent task store and an unreadable one are both
answered 500 "Could not read new tasks"; an unparseable one is answered 500
"Could not parse new tasks", a different response with the same status. -/
theorem list_failure_responses {B : Type} (J : Codec B) (fsAbsent fsUnreadable fsCorrupt : FS B)
    (data : B) (h₁ : fsAbsent.tasks = .absent) (h₂ : fsUnreadable.tasks = .unreadable)
    (h₃ : fsCorrupt.tasks = .data data) (hbad : J.unmarshalTasks data = none) :
    ViewAllNewTasksHandler J fsAbsent =
        httpError "Could not read new tasks" StatusInternalServerError ∧
      ViewAllNewTasksHandler J fsUnreadable =
        httpError "Could not read new tasks" StatusInternalServerError ∧
      ViewAllNewTasksHandler J fsCorrupt =
        httpError "Could not parse new tasks" StatusInternalServerError ∧
      ViewAllNewTasksHandler J fsAbsent ≠ ViewAllNewTasksHandler J fsCorrupt ∧
      (ViewAllNewTasksHandler J fsAbsent).status = (ViewAllNewTasksHandler J fsCorrupt).status := by
  have e₁ : ViewAllNewTasksHandler J fsAbsent =
      httpError "Could not read new tasks" StatusInternalServerError := by
    unfold ViewAllNewTasksHandler; simp only [h₁]
  have e₂ : ViewAllNewTasksHandler J fsUnreadable =
      httpError "Could not read new tasks" StatusInternalServerError := by
    unfold ViewAllNewTasksHandler; simp only [h₂]
  have e₃ : ViewAllNewTasksHandler J fsCorrupt =
      httpError "Could not parse new tasks" StatusInternalServerError := by
    unfold ViewAllNewTasksHandler; simp only [h₃, hbad]
  refine ⟨e₁, e₂, e₃, ?_, ?_⟩
  · rw [e₁, e₃]; decide
  · rw [e₁, e₃]; rfl

/-- The three failing states of `./tasks.json` on the reference library. -/
theorem list_failure_responses_witness :
    ViewAllNewTasksHandler refCodec (FS.fresh Doc) =
        httpError "Could not read new tasks" StatusInternalServerError ∧
      ViewAllNewTasksHandler refCodec { FS.fresh Doc with tasks := .unreadable } =
        httpError "Could not read new tasks" StatusInternalServerError ∧
      ViewAllNewTasksHandler refCodec { FS.fresh Doc with tasks := .data Doc.malformed } =
        httpError "Could not parse new tasks" StatusInternalServerError ∧
      ViewAllNewTasksHandler refCodec (FS.fresh Doc) ≠
        ViewAllNewTasksHandler refCodec { FS.fresh Doc with tasks := .data Doc.malformed } ∧
      (ViewAllNewTasksHandler refCodec (FS.fresh Doc)).status =
        (ViewAllNewTasksHandler refCodec
          { FS.fresh Doc with tasks := .data Doc.malformed }).status :=
  list_failure_responses refCodec (FS.fresh Doc) { FS.fresh Doc with tasks := .unreadable }
    { FS.fresh Doc with tasks := .data Doc.malformed } Doc.malformed rfl rfl rfl rfl

/-- C9: when the body cannot be read, is empty, or does not decode as a task,
`CreateTaskHandler` answers with a 4xx status and the file system is the one
before the call. -/
theorem create_invalid_body {B : Type} (J : Codec B) (fs : FS B) (body : Option B)
    (hbad : body = none ∨
      ∃ data, body = some data ∧ (J.isEmpty data = true ∨ J.unmarshalTask data = none)) :
    (CreateTaskHandler J fs body).1 = fs ∧
      400 ≤ (CreateTaskHandler J fs body).2.status ∧
      (CreateTaskHandler J fs body).2.status < 500 := by
  rcases hbad with h | ⟨data, h, hd⟩
  · subst h
    simp [CreateTaskHandler, httpError, StatusBadRequest]
  · subst h
    by_cases he : J.isEmpty data = true
    · simp [CreateTaskHandler, httpError, StatusBadRequest, he]
    · rcases hd with hd | hd
      · exact absurd hd he
      · simp [CreateTaskHandler, httpError, StatusExpectationFailed, he, hd]

/-- A body that is not JSON leaves the store `populated` as it was. -/
theorem create_invalid_body_witness :
    (CreateTaskHandler refCodec populated (some Doc.malformed)).1 = populated ∧
      400 ≤ (CreateTaskHandler refCodec populated (some Doc.malformed)).2.status ∧
      (CreateTaskHandler refCodec populated (some Doc.malformed)).2.status < 500 :=
  create_invalid_body refCodec populated (some Doc.malformed)
    (Or.inr ⟨Doc.malformed, rfl, Or.inr rfl⟩)

theorem create_unfold {B : Type} (J : Codec B) (data : B) (t : NewTask)
    (hne : J.isEmpty data = false) (ht : J.unmarshalTask data = some t) (fs : FS B) :
    CreateTaskHandler J fs (some data) =
      match loadExisting J fs with
      | .error resp => (fs, resp)
      | .ok tasks =>
        match J.marshalTasks (tasks ++ [t]) with
        | none => (fs, httpError "Error encoding task list" StatusInternalServerError)
        | some updatedData =>
          if fs.tasksWritable then
            ({ fs with tasks := .data updatedData },
              { status := StatusCreated, body := .text "Added New Task" })
          else (fs, httpError "Error writing task file" StatusInternalServerError) := by
  unfold CreateTaskHandler
  simp only [hne, ht]
  rfl

theorem loadExisting_error_status {B : Type} (J : Codec B) (fs : FS B) (resp : Response)
    (h : loadExisting J fs = .error resp) : resp.status = StatusInternalServerError := by
  unfold loadExisting at h
  cases hf : fs.training with
  | absent => simp [hf] at h
  | unreadable =>
    simp only [hf, Except.error.injEq] at h
    rw [← h]; rfl
  | data d =>
    cases hp : J.unmarshalTasks d with
    | none =>
      simp only [hf, hp, Except.error.injEq] at h
      rw [← h]; rfl
    | some ts => simp [hf, hp] at h

theorem loadExisting_ok {B : Type} (J : Codec B) (fs : FS B) (stored : List NewTask)
    (h : loadExisting J fs = .ok stored) :
    (fs.training = .absent → stored = []) ∧
      (∀ d, fs.training = .data d → J.unmarshalTasks d = some stored) := by
  unfold loadExisting at h
  cases hf : fs.training with
  | absent =>
    simp only [hf, Except.ok.injEq] at h
    exact ⟨fun _ => h.symm, fun d hd => by simp at hd⟩
  | unreadable => simp [hf] at h
  | data d =>
    cases hp : J.unmarshalTasks d with
    | none => simp [hf, hp] at h
    | some ts =>
      simp only [hf, hp, Except.ok.injEq] at h
      subst h
      refine ⟨fun hd => by simp at hd, ?_⟩
      intro d' hd'
      injection hd' with hd'
      subst hd'
      exact hp

/-- C10: a call of `CreateTaskHandler` with a well-formed task `t` that answers
201 replaces `./tasks.json` by the encoding of `stored ++ [t]`, where `stored`
is the decoding as tasks of `./data/automl_training_data.json` (the projection of
its assignment records, and the empty list when the file is absent); the other
files are unchanged, the outcome is the same for every previous content of
`./tasks.json`, and a listing after the call returns `stored ++ [t]`. -/
theorem create_persists_training_rows {B : Type} (J : Codec B) (hproj : J.Projects)
    (hrt : J.RoundTrip) (fs : FS B) (data : B) (t : NewTask)
    (hne : J.isEmpty data = false) (ht : J.unmarshalTask data = some t)
    (hok : (CreateTaskHandler J fs (some data)).2.status = StatusCreated) :
    ∃ stored updated,
      (fs.training = .absent → stored = []) ∧
      (∀ d, fs.training = .data d → J.unmarshalTasks d = some stored) ∧
      (∀ d recs, fs.training = .data d → J.unmarshalAssigned d = some recs →
        stored = recs.map AssignedTask.toNewTask) ∧
      J.marshalTasks (stored ++ [t]) = some updated ∧
      (∀ old, CreateTaskHandler J { fs with tasks := old } (some data) =
        ({ fs with tasks := .data updated }, ⟨StatusCreated, .text "Added New Task"⟩)) ∧
      (CreateTaskHandler J fs (some data)).1 = { fs with tasks := .data updated } ∧
      (CreateTaskHandler J fs (some data)).1.training = fs.training ∧
      (CreateTaskHandler J fs (some data)).1.predictions = fs.predictions ∧
      ViewAllNewTasksHandler J (CreateTaskHandler J fs (some data)).1 =
        ⟨StatusOK, .tasks (stored ++ [t])⟩ := by
  have hcreate := create_unfold J data t hne ht
  have hstatus := hok
  rw [hcreate fs] at hstatus
  cases hl : loadExisting J fs with
  | error resp =>
    simp only [hl] at hstatus
    rw [loadExisting_error_status J fs resp hl] at hstatus
    exact absurd hstatus (by decide)
  | ok stored =>
    cases hm : J.marshalTasks (stored ++ [t]) with
    | none =>
      simp [hl, hm, httpError, StatusInternalServerError, StatusCreated] at hstatus
    | some updated =>
      by_cases hw : fs.tasksWritable = true
      case neg =>
        simp [hl, hm, hw, httpError, StatusInternalServerError, StatusCreated] at hstatus
      case pos =>
        have hall : ∀ old, CreateTaskHandler J { fs with tasks := old } (some data) =
            ({ fs with tasks := .data updated }, ⟨StatusCreated, .text "Added New Task"⟩) := by
          intro old
          rw [hcreate]
          have hl' : loadExisting J { fs with tasks := old } = .ok stored := hl
          rw [hl']
          simp only [hm, hw, if_true]
        have hself : CreateTaskHandler J fs (some data) =
            ({ fs with tasks := .data updated }, ⟨StatusCreated, .text "Added New Task"⟩) := by
          rw [hcreate, hl]
          simp only [hm, hw, if_true]
        have hload := loadExisting_ok J fs stored hl
        refine ⟨stored, updated, hload.1, hload.2, ?_, hm, hall, ?_, ?_, ?_, ?_⟩
        · intro d recs hd hrecs
          have h₁ := hload.2 d hd
          rw [hproj d recs hrecs] at h₁
          exact (Option.some.inj h₁).symm
        · rw [hself]
        · rw [hself]
        · rw [hself]
        · rw [hself]
          unfold ViewAllNewTasksHandler
          simp only [hrt _ _ hm]

/-- On the store `populated`, a submission of `taskC` replaces `./tasks.json` by
the two projected assignment records followed by `taskC`. -/
theorem create_persists_training_rows_witness :
    ∃ stored updated,
      (populated.training = .absent → stored = []) ∧
      (∀ d, populated.training = .data d → refCodec.unmarshalTasks d = some stored) ∧
      (∀ d recs, populated.training = .data d → refCodec.unmarshalAssigned d = some recs →
        stored = recs.map AssignedTask.toNewTask) ∧
      refCodec.marshalTasks (stored ++ [taskC]) = some updated ∧
      (∀ old, CreateTaskHandler refCodec { populated with tasks := old }
          (some (Doc.object (Row.ofNewTask taskC))) =
        ({ populated with tasks := .data updated }, ⟨StatusCreated, .text "Added New Task"⟩)) ∧
      (CreateTaskHandler refCodec populated (some (Doc.object (Row.ofNewTask taskC)))).1 =
        { populated with tasks := .data updated } ∧
      (CreateTaskHandler refCodec populated
        (some (Doc.object (Row.ofNewTask taskC)))).1.training = populated.training ∧
      (CreateTaskHandler refCodec populated
        (some (Doc.object (Row.ofNewTask taskC)))).1.predictions = populated.predictions ∧
      ViewAllNewTasksHandler refCodec
          (CreateTaskHandler refCodec populated (some (Doc.object (Row.ofNewTask taskC)))).1 =
        ⟨StatusOK, .tasks (stored ++ [taskC])⟩ :=
  create_persists_training_rows refCodec refCodec_projects refCodec_roundTrip populated
    (Doc.object (Row.ofNewTask taskC)) taskC (by decide) rfl (by decide)

end TaskService
